import Mathlib

/-!
Verification of the learn-bitcoin full-node implementation.

This file shallowly embeds the Go sources of the repository
(pkg/crypto, pkg/serialization, pkg/types, pkg/utxo, pkg/validation,
pkg/consensus, pkg/mempool, pkg/script, pkg/transaction, pkg/rpc) into
Lean 4 and proves or refutes the frozen specification claims.

Conventions:
- a Go byte is a Nat below 256; a byte slice is a List Nat;
- a types.Hash ([32]byte) is a List Nat of length 32;
- Go int64 values are Int (claim-relevant quantities stay far below
  2^63, so int64 wrap-around is not modelled except where the source
  itself converts, e.g. serialization casts values to uint64);
- Go uint32 / uint64 values are Nat;
- fallible Go functions (returning error) become Except or Option with
  structured error values mirroring each error site of the source;
- Go maps keyed by outpoint / hash strings become association lists
  keyed by the decidable-equality key itself (the Go string keys are
  injective images of those keys).
-/

set_option maxRecDepth 10000

/-- A byte is a Nat; byte strings are lists. -/
abbrev ByteStr := List Nat

/-- types.Hash: a 32-byte hash value. -/
abbrev Hash := List Nat

/-- The all-zero 32-byte hash (Go types.Hash zero value). -/
def zeroHash : Hash := List.replicate 32 0

/- ### SHA-256 (models the external Go crypto/sha256 primitive, FIPS 180-4) -/

/-- Addition modulo 2^32 (uint32 arithmetic). -/
def add32 (a b : Nat) : Nat := (a + b) % 4294967296

/-- Right rotation of a 32-bit word. -/
def rotr32 (n x : Nat) : Nat :=
  ((x >>> n) ||| (x <<< (32 - n))) % 4294967296

/-- SHA-256 round constants. -/
def K256 : List Nat :=
  [1116352408, 1899447441, 3049323471, 3921009573, 961987163, 1508970993,
   2453635748, 2870763221, 3624381080, 310598401, 607225278, 1426881987,
   1925078388, 2162078206, 2614888103, 3248222580, 3835390401, 4022224774,
   264347078, 604807628, 770255983, 1249150122, 1555081692, 1996064986,
   2554220882, 2821834349, 2952996808, 3210313671, 3336571891, 3584528711,
   113926993, 338241895, 666307205, 773529912, 1294757372, 1396182291,
   1695183700, 1986661051, 2177026350, 2456956037, 2730485921, 2820302411,
   3259730800, 3345764771, 3516065817, 3600352804, 4094571909, 275423344,
   430227734, 506948616, 659060556, 883997877, 958139571, 1322822218,
   1537002063, 1747873779, 1955562222, 2024104815, 2227730452, 2361852424,
   2428436474, 2756734187, 3204031479, 3329325298]

/-- SHA-256 working state (eight 32-bit words). -/
structure SHAState where
  a : Nat
  b : Nat
  c : Nat
  d : Nat
  e : Nat
  f : Nat
  g : Nat
  h : Nat
deriving Repr, DecidableEq

/-- SHA-256 initial hash value. -/
def shaInit : SHAState :=
  ⟨1779033703, 3144134277, 1013904242, 2773480762, 1359893119, 2600822924, 528734635, 1541459225⟩

/-- Interpret a list of bytes as a big-endian natural number. -/
def beBytesToNat (bs : List Nat) : Nat := bs.foldl (fun acc b => acc * 256 + b) 0

/-- Split a list into consecutive chunks of size n (fuel-bounded; fuel at
least the list length makes the bound inoperative). -/
def chunkList (fuel n : Nat) (l : List Nat) : List (List Nat) :=
  match fuel, l with
  | _, [] => []
  | 0, _ => []
  | Nat.succ f, l => l.take n :: chunkList f n (l.drop n)

/-- Extend the 16-word message schedule by n further words. -/
def extendSchedule : Nat → List Nat → List Nat
  | 0, w => w
  | Nat.succ n, w =>
    let l := w.length
    let w15 := w.getD (l - 15) 0
    let w2 := w.getD (l - 2) 0
    let s0 := (rotr32 7 w15) ^^^ (rotr32 18 w15) ^^^ (w15 >>> 3)
    let s1 := (rotr32 17 w2) ^^^ (rotr32 19 w2) ^^^ (w2 >>> 10)
    extendSchedule n (w ++ [(w.getD (l - 16) 0 + s0 + w.getD (l - 7) 0 + s1) % 4294967296])

/-- One SHA-256 compression round, consuming one (constant, schedule word) pair. -/
def compressRound (st : SHAState) (kw : Nat × Nat) : SHAState :=
  let s1 := (rotr32 6 st.e) ^^^ (rotr32 11 st.e) ^^^ (rotr32 25 st.e)
  let ch := (st.e &&& st.f) ^^^ ((st.e ^^^ 0xffffffff) &&& st.g)
  let t1 := (st.h + s1 + ch + kw.1 + kw.2) % 4294967296
  let s0 := (rotr32 2 st.a) ^^^ (rotr32 13 st.a) ^^^ (rotr32 22 st.a)
  let mj := (st.a &&& st.b) ^^^ (st.a &&& st.c) ^^^ (st.b &&& st.c)
  let t2 := (s0 + mj) % 4294967296
  ⟨(t1 + t2) % 4294967296, st.a, st.b, st.c, (st.d + t1) % 4294967296, st.e, st.f, st.g⟩

/-- Compress one 64-byte chunk into the running hash state. -/
def compressChunk (hs : SHAState) (chunk : List Nat) : SHAState :=
  let w := extendSchedule 48 ((chunkList 16 4 chunk).map beBytesToNat)
  let st := (K256.zip w).foldl compressRound hs
  ⟨add32 hs.a st.a, add32 hs.b st.b, add32 hs.c st.c, add32 hs.d st.d,
   add32 hs.e st.e, add32 hs.f st.f, add32 hs.g st.g, add32 hs.h st.h⟩

/-- Big-endian 8-byte encoding of a natural number. -/
def beBytes8 (n : Nat) : List Nat :=
  [(n >>> 56) % 256, (n >>> 48) % 256, (n >>> 40) % 256, (n >>> 32) % 256,
   (n >>> 24) % 256, (n >>> 16) % 256, (n >>> 8) % 256, n % 256]

/-- Big-endian 4-byte encoding of a 32-bit word. -/
def beBytes4 (x : Nat) : List Nat :=
  [(x >>> 24) % 256, (x >>> 16) % 256, (x >>> 8) % 256, x % 256]

/-- SHA-256 message padding: append 0x80, zero fill, and the 64-bit
big-endian bit length, reaching a multiple of 64 bytes. -/
def padMessage (msg : List Nat) : List Nat :=
  msg ++ [0x80] ++ List.replicate ((64 - ((msg.length + 9) % 64)) % 64) 0
      ++ beBytes8 (msg.length * 8)

/-- SHA-256 of a byte string. -/
def sha256 (msg : List Nat) : List Nat :=
  let padded := padMessage msg
  let fin := (chunkList padded.length 64 padded).foldl compressChunk shaInit
  beBytes4 fin.a ++ beBytes4 fin.b ++ beBytes4 fin.c ++ beBytes4 fin.d ++
  beBytes4 fin.e ++ beBytes4 fin.f ++ beBytes4 fin.g ++ beBytes4 fin.h

/-- crypto.DoubleSHA256: Bitcoin hash function, SHA-256 applied twice. -/
def DoubleSHA256 (data : List Nat) : Hash := sha256 (sha256 data)

/- ### RIPEMD-160 (models the external golang.org/x/crypto/ripemd160 primitive) -/

/-- Left rotation of a 32-bit word. -/
def rotl32 (n x : Nat) : Nat :=
  ((x <<< n) ||| (x >>> (32 - n))) % 4294967296

/-- RIPEMD-160 working state (five 32-bit words). -/
structure RMDState where
  a : Nat
  b : Nat
  c : Nat
  d : Nat
  e : Nat
deriving Repr, DecidableEq

/-- RIPEMD-160 initial state. -/
def rmdInit : RMDState := ⟨0x67452301, 0xefcdab89, 0x98badcfe, 0x10325476, 0xc3d2e1f0⟩

/-- RIPEMD-160 selection function for round j (0..79). -/
def rmdF (j x y z : Nat) : Nat :=
  if j < 16 then x ^^^ y ^^^ z
  else if j < 32 then (x &&& y) ||| ((x ^^^ 0xffffffff) &&& z)
  else if j < 48 then (x ||| (y ^^^ 0xffffffff)) ^^^ z
  else if j < 64 then (x &&& z) ||| (y &&& (z ^^^ 0xffffffff))
  else x ^^^ (y ||| (z ^^^ 0xffffffff))

/-- RIPEMD-160 left-line round constants. -/
def rmdKL (j : Nat) : Nat :=
  if j < 16 then 0 else if j < 32 then 0x5a827999
  else if j < 48 then 0x6ed9eba1 else if j < 64 then 0x8f1bbcdc else 0xa953fd4e

/-- RIPEMD-160 right-line round constants. -/
def rmdKR (j : Nat) : Nat :=
  if j < 16 then 0x50a28be6 else if j < 32 then 0x5c4dd124
  else if j < 48 then 0x6d703ef3 else if j < 64 then 0x7a6d76e9 else 0

/-- Message word permutation, left line. -/
def rmdRL : List Nat :=
  [0,1,2,3,4,5,6,7,8,9,10,11,12,13,14,15,
   7,4,13,1,10,6,15,3,12,0,9,5,2,14,11,8,
   3,10,14,4,9,15,8,1,2,7,0,6,13,11,5,12,
   1,9,11,10,0,8,12,4,13,3,7,15,14,5,6,2,
   4,0,5,9,7,12,2,10,14,1,3,8,11,6,15,13]

/-- Message word permutation, right line. -/
def rmdRR : List Nat :=
  [5,14,7,0,9,2,11,4,13,6,15,8,1,10,3,12,
   6,11,3,7,0,13,5,10,14,15,8,12,4,9,1,2,
   15,5,1,3,7,14,6,9,11,8,12,2,10,0,4,13,
   8,6,4,1,3,11,15,0,5,12,2,13,9,7,10,14,
   12,15,10,4,1,5,8,7,6,2,13,14,0,3,9,11]

/-- Rotation amounts, left line. -/
def rmdSL : List Nat :=
  [11,14,15,12,5,8,7,9,11,13,14,15,6,7,9,8,
   7,6,8,13,11,9,7,15,7,12,15,9,11,7,13,12,
   11,13,6,7,14,9,13,15,14,8,13,6,5,12,7,5,
   11,12,14,15,14,15,9,8,9,14,5,6,8,6,5,12,
   9,15,5,11,6,8,13,12,5,12,13,14,11,8,5,6]

/-- Rotation amounts, right line. -/
def rmdSR : List Nat :=
  [8,9,9,11,13,15,15,5,7,7,8,11,14,14,12,6,
   9,13,15,7,12,8,9,11,7,7,12,7,6,15,13,11,
   9,7,15,11,8,6,6,14,12,13,5,14,13,13,7,5,
   15,5,8,11,14,14,6,14,6,9,12,9,12,5,15,8,
   8,5,12,9,12,5,14,6,8,13,6,5,15,13,11,11]

/-- Interpret a list of bytes as a little-endian natural number. -/
def leBytesToNat (bs : List Nat) : Nat := bs.foldr (fun b acc => acc * 256 + b) 0

/-- One RIPEMD-160 line step at round j over message words X. -/
def rmdStep (X : List Nat) (useRight : Bool) (st : RMDState) (j : Nat) : RMDState :=
  let fj := if useRight then rmdF (79 - j) st.b st.c st.d else rmdF j st.b st.c st.d
  let rj := (if useRight then rmdRR else rmdRL).getD j 0
  let sj := (if useRight then rmdSR else rmdSL).getD j 0
  let k := if useRight then rmdKR j else rmdKL j
  let t := add32 (rotl32 sj ((st.a + fj + X.getD rj 0 + k) % 4294967296)) st.e
  ⟨st.e, t, st.b, rotl32 10 st.c, st.d⟩

/-- Compress one 64-byte chunk into the running RIPEMD-160 state. -/
def rmdCompress (hs : RMDState) (chunk : List Nat) : RMDState :=
  let X := (chunkList 16 4 chunk).map leBytesToNat
  let l := (List.range 80).foldl (rmdStep X false) hs
  let r := (List.range 80).foldl (rmdStep X true) hs
  ⟨(hs.b + l.c + r.d) % 4294967296,
   (hs.c + l.d + r.e) % 4294967296,
   (hs.d + l.e + r.a) % 4294967296,
   (hs.e + l.a + r.b) % 4294967296,
   (hs.a + l.b + r.c) % 4294967296⟩

/-- Little-endian 8-byte encoding of a natural number. -/
def leBytes8 (n : Nat) : List Nat :=
  [n % 256, (n >>> 8) % 256, (n >>> 16) % 256, (n >>> 24) % 256,
   (n >>> 32) % 256, (n >>> 40) % 256, (n >>> 48) % 256, (n >>> 56) % 256]

/-- Little-endian 4-byte encoding of a 32-bit word. -/
def leBytes4 (x : Nat) : List Nat :=
  [x % 256, (x >>> 8) % 256, (x >>> 16) % 256, (x >>> 24) % 256]

/-- RIPEMD-160 of a byte string (padding as in SHA-256 but with a
little-endian length field). -/
def ripemd160 (msg : List Nat) : List Nat :=
  let padded := msg ++ [0x80] ++ List.replicate ((64 - ((msg.length + 9) % 64)) % 64) 0
      ++ leBytes8 (msg.length * 8)
  let fin := (chunkList padded.length 64 padded).foldl rmdCompress rmdInit
  leBytes4 fin.a ++ leBytes4 fin.b ++ leBytes4 fin.c ++ leBytes4 fin.d ++ leBytes4 fin.e

/- ### Core data types (pkg/types) -/

/-- types.TxInput. -/
structure TxInput where
  PrevTxHash : Hash
  OutputIndex : Nat
  SignatureScript : ByteStr
  Sequence : Nat
deriving Repr, DecidableEq, Inhabited

/-- types.TxOutput (Value is a Go int64). -/
structure TxOutput where
  Value : Int
  PubKeyScript : ByteStr
deriving Repr, DecidableEq, Inhabited

/-- types.Transaction. -/
structure Transaction where
  Version : Int
  Inputs : List TxInput
  Outputs : List TxOutput
  LockTime : Nat
deriving Repr, DecidableEq, Inhabited

/-- utxo.OutPoint / types.OutPoint. -/
structure OutPoint where
  TxHash : Hash
  Index : Nat
deriving Repr, DecidableEq, Inhabited

/-- utxo.NewOutPoint. -/
def NewOutPoint (hash : Hash) (index : Nat) : OutPoint := ⟨hash, index⟩

/-- types.BlockHeader. -/
structure BlockHeader where
  Version : Int
  PrevBlockHash : Hash
  MerkleRoot : Hash
  Timestamp : Nat
  Bits : Nat
  Nonce : Nat
deriving Repr, DecidableEq, Inhabited

/-- types.Block. -/
structure Block where
  Header : BlockHeader
  Transactions : List Transaction
deriving Repr, DecidableEq, Inhabited

/- ### Canonical serialization (pkg/serialization)

The Go writers target a bytes.Buffer, whose writes cannot fail, so the
error returns of the Go functions are vacuous and the embedding is pure. -/

/-- Little-endian 2-byte encoding. -/
def leBytes2 (x : Nat) : List Nat := [x % 256, (x >>> 8) % 256]

/-- Two's-complement uint32 image of a Go int32 value. -/
def toU32 (v : Int) : Nat := (v % 4294967296).toNat

/-- Two's-complement uint64 image of a Go int64 value. -/
def toU64 (v : Int) : Nat := (v % 18446744073709551616).toNat

/-- serialization.WriteVarInt: Bitcoin compact size encoding. -/
def writeVarInt (v : Nat) : List Nat :=
  if v < 0xFD then [v]
  else if v ≤ 0xFFFF then 0xFD :: leBytes2 v
  else if v ≤ 0xFFFFFFFF then 0xFE :: leBytes4 v
  else 0xFF :: leBytes8 v

/-- serialization.WriteBytes: varint length prefix followed by the data. -/
def writeBytesField (data : ByteStr) : List Nat :=
  writeVarInt data.length ++ data

/-- serialization.SerializeTransaction. -/
def SerializeTransaction (tx : Transaction) : List Nat :=
  leBytes4 (toU32 tx.Version)
  ++ writeVarInt tx.Inputs.length
  ++ (tx.Inputs.map (fun i =>
        i.PrevTxHash ++ leBytes4 i.OutputIndex
        ++ writeBytesField i.SignatureScript ++ leBytes4 i.Sequence)).flatten
  ++ writeVarInt tx.Outputs.length
  ++ (tx.Outputs.map (fun o =>
        leBytes8 (toU64 o.Value) ++ writeBytesField o.PubKeyScript)).flatten
  ++ leBytes4 tx.LockTime

/-- serialization.HashTransaction: txid as double SHA-256 of the canonical bytes. -/
def HashTransaction (tx : Transaction) : Hash :=
  DoubleSHA256 (SerializeTransaction tx)

/-- serialization.SerializeBlockHeader: the 80 header bytes. -/
def SerializeBlockHeader (bh : BlockHeader) : List Nat :=
  leBytes4 (toU32 bh.Version) ++ bh.PrevBlockHash ++ bh.MerkleRoot
  ++ leBytes4 bh.Timestamp ++ leBytes4 bh.Bits ++ leBytes4 bh.Nonce

/-- serialization.HashBlockHeader. -/
def HashBlockHeader (bh : BlockHeader) : Hash :=
  DoubleSHA256 (SerializeBlockHeader bh)

/-- serialization.SerializeBlock. -/
def SerializeBlock (b : Block) : List Nat :=
  SerializeBlockHeader b.Header
  ++ writeVarInt b.Transactions.length
  ++ (b.Transactions.map SerializeTransaction).flatten

/- ### Merkle tree (pkg/crypto/merkle.go) -/

/-- One level of crypto.ComputeMerkleRoot: hash consecutive pairs,
duplicating the final node of an odd-sized level. -/
def hashPairs : List Hash → List Hash
  | [] => []
  | [x] => [DoubleSHA256 (x ++ x)]
  | x :: y :: rest => DoubleSHA256 (x ++ y) :: hashPairs rest

/-- The level-combining loop of crypto.ComputeMerkleRoot. The fuel
argument only bounds the iteration count; hashPairs at least halves a
level, so fuel equal to the initial length never runs out. -/
def merkleGo (fuel : Nat) (l : List Hash) : Hash :=
  match fuel, l with
  | _, [] => zeroHash
  | _, [h] => h
  | 0, l => l.headD zeroHash
  | Nat.succ f, l => merkleGo f (hashPairs l)

/-- crypto.ComputeMerkleRoot. -/
def ComputeMerkleRoot (txHashes : List Hash) : Hash :=
  match txHashes with
  | [] => zeroHash
  | l => merkleGo l.length l

/- ### UTXO set (pkg/utxo) -/

/-- utxo.UTXO: an unspent transaction output with its creation metadata. -/
structure UTXO where
  TxHash : Hash
  OutputIndex : Nat
  Output : TxOutput
  Height : Nat
  IsCoinbase : Bool
deriving Repr, DecidableEq, Inhabited

/-- utxo.NewUTXO. -/
def NewUTXO (txHash : Hash) (outputIndex : Nat) (output : TxOutput)
    (height : Nat) (isCoinbase : Bool) : UTXO :=
  ⟨txHash, outputIndex, output, height, isCoinbase⟩

/-- utxo.UTXOSet: the Go map keyed by outpoint strings becomes an
association list keyed by the outpoint itself (outpoint strings are an
injective image of outpoints). Keys are unique by construction. -/
abbrev UTXOSet := List (OutPoint × UTXO)

/-- Map lookup (Go us.utxos[key] read). -/
def setLookup (s : UTXOSet) (op : OutPoint) : Option UTXO :=
  match s.find? (fun e => e.1 = op) with
  | some e => some e.2
  | none => none

/-- Map deletion (Go delete(us.utxos, key)). -/
def setErase (s : UTXOSet) (op : OutPoint) : UTXOSet :=
  s.filter (fun e => ¬(e.1 = op))

/-- Map write (Go us.utxos[key] = utxo): replace in place or append. -/
def setInsert (s : UTXOSet) (op : OutPoint) (u : UTXO) : UTXOSet :=
  if (setLookup s op).isSome then
    s.map (fun e => if e.1 = op then (op, u) else e)
  else
    s ++ [(op, u)]

/-- utxo.UTXOSet.Get: retrieve a UTXO, or the "UTXO not found" error. -/
def UTXOSetGet (s : UTXOSet) (op : OutPoint) : Option UTXO := setLookup s op

/-- The input-removal loop of utxo.UTXOSet.ApplyTransaction: delete each
referenced outpoint in order; on the first absent outpoint, stop with
that outpoint as the error datum and with the deletions made so far
retained (the Go method mutates its receiver in place). -/
def removeInputsLoop (s : UTXOSet) : List TxInput → Option OutPoint × UTXOSet
  | [] => (none, s)
  | i :: rest =>
    let op := NewOutPoint i.PrevTxHash i.OutputIndex
    if (setLookup s op).isSome then removeInputsLoop (setErase s op) rest
    else (some op, s)

/-- The output-addition loop of utxo.UTXOSet.ApplyTransaction: add one
UTXO per output at (txHash, i). -/
def addOutputsLoop (txHash : Hash) (height : Nat) (isCoinbase : Bool) :
    UTXOSet → Nat → List TxOutput → UTXOSet
  | s, _, [] => s
  | s, i, o :: rest =>
    addOutputsLoop txHash height isCoinbase
      (setInsert s (NewOutPoint txHash i) (NewUTXO txHash i o height isCoinbase))
      (i + 1) rest

/-- utxo.UTXOSet.ApplyTransaction. The first component is the Go error
(the offending outpoint of a "trying to spend non-existent UTXO"
failure); the second is the resulting state of the receiver, which on
failure retains the removals already performed. -/
def ApplyTransaction (s : UTXOSet) (tx : Transaction) (txHash : Hash)
    (height : Nat) (isCoinbase : Bool) : Option OutPoint × UTXOSet :=
  match (if isCoinbase then (none, s) else removeInputsLoop s tx.Inputs) with
  | (some op, s1) => (some op, s1)
  | (none, s1) => (none, addOutputsLoop txHash height isCoinbase s1 0 tx.Outputs)

/-- utxo.UTXOSet.RevertTransaction: delete the outpoints (txHash, i)
created by the transaction outputs. Spent inputs are not re-added (the
source leaves that to a caller holding prior-output data); the Go error
return is always nil. -/
def RevertTransaction (s : UTXOSet) (tx : Transaction) (txHash : Hash) : UTXOSet :=
  (List.range tx.Outputs.length).foldl (fun st i => setErase st (NewOutPoint txHash i)) s

/- ### Consensus rules (pkg/consensus/rules.go) -/

/-- consensus.ConsensusRules (MaxFutureBlockTime, a time.Duration used
only by the unembedded ValidateBlockTime, is omitted). -/
structure ConsensusRules where
  MaxBlockSize : Nat
  MaxBlockWeight : Nat
  CoinbaseMaturity : Nat
  SubsidyHalvingInterval : Nat
  MedianTimeSpan : Nat
  BIP16Height : Nat
  BIP34Height : Nat
  BIP65Height : Nat
  BIP66Height : Nat
  SegWitHeight : Nat
deriving Repr, DecidableEq

/-- consensus.NewMainnetRules. -/
def NewMainnetRules : ConsensusRules :=
  { MaxBlockSize := 1000000
    MaxBlockWeight := 4000000
    CoinbaseMaturity := 100
    SubsidyHalvingInterval := 210000
    MedianTimeSpan := 11
    BIP16Height := 173805
    BIP34Height := 227931
    BIP65Height := 388381
    BIP66Height := 363725
    SegWitHeight := 481824 }

/-- consensus.ConsensusRules.GetBlockSubsidy (uint64 result). -/
def GetBlockSubsidy (cr : ConsensusRules) (height : Nat) : Nat :=
  let halvings := height / cr.SubsidyHalvingInterval
  if halvings ≥ 64 then 0
  else (50 * 100000000) >>> halvings

/-- consensus.ConsensusRules.ValidateCoinbaseMaturity: false exactly when
the spend height is below creation height plus the maturity window (the
Go function returns a non-nil error then). -/
def ValidateCoinbaseMaturity (cr : ConsensusRules) (coinbaseHeight spendHeight : Nat) : Bool :=
  !(spendHeight < coinbaseHeight + cr.CoinbaseMaturity)

/- ### Validation constants and helpers (pkg/validation/state.go) -/

/-- validation.MaxBlockSize. -/
def MaxBlockSize : Nat := 1000000

/-- validation.MaxMoney (21 million BTC in satoshis). -/
def MaxMoney : Int := 21000000 * 100000000

/-- validation.InitialBlockReward. -/
def InitialBlockReward : Nat := 50 * 100000000

/-- validation.SubsidyHalvingInterval. -/
def SubsidyHalvingInterval : Nat := 210000

/-- validation.GetBlockReward (int64 result). -/
def GetBlockReward (height : Nat) : Int :=
  let halvings := height / SubsidyHalvingInterval
  if halvings ≥ 64 then 0
  else Int.ofNat (InitialBlockReward >>> halvings)

/-- Structured error values for the validation pipeline, one constructor
per error site of the Go sources (pkg/validation and the transaction
checks it invokes). -/
inductive VErr where
  | prevHashMismatch : VErr
  | insufficientPoW : VErr
  | blockTooLarge : VErr
  | noTransactions : VErr
  | firstNotCoinbase : VErr
  | coinbaseNotFirst (i : Nat) : VErr
  | notCoinbase : VErr
  | coinbaseScriptLen (l : Nat) : VErr
  | coinbaseNoOutputs : VErr
  | txNoInputs : VErr
  | txNoOutputs : VErr
  | txDupInput (h : Hash) (idx : Nat) : VErr
  | txNegativeOutput (i : Nat) : VErr
  | txOutputTooLarge (i : Nat) : VErr
  | txTotalOverflow : VErr
  | txTooLarge : VErr
  | txInvalid (i : Nat) (e : VErr) : VErr
  | utxoNotFound (i : Nat) (op : OutPoint) : VErr
  | negativeValue : VErr
  | valueExceedsMax : VErr
  | outputsExceedInputs : VErr
  | txInputsInvalid (i : Nat) (e : VErr) : VErr
  | rewardExceeded : VErr
  | merkleMismatch : VErr
  | duplicateTx (h : Hash) : VErr
deriving Repr, DecidableEq

/-- validation.CheckMoneyRange. -/
def CheckMoneyRange (value : Int) : Except VErr Unit :=
  if value < 0 then .error .negativeValue
  else if value > MaxMoney then .error .valueExceedsMax
  else .ok ()

/-- validation.ValidateBlockReward. -/
def ValidateBlockReward (coinbaseValue totalFees : Int) (height : Nat) : Except VErr Unit :=
  let expectedReward := GetBlockReward height
  let maxAllowed := expectedReward + totalFees
  if coinbaseValue > maxAllowed then .error .rewardExceeded
  else .ok ()

/-- The leading-zero-byte count used by validation.IsValidProofOfWork. -/
def countLeadingZeroBytes : List Nat → Nat
  | [] => 0
  | b :: rest => if b = 0 then 1 + countLeadingZeroBytes rest else 0

/-- validation.IsValidProofOfWork: the source counts leading zero bytes
of the block hash and compares against a required count hardcoded to 0;
the bits argument is never consulted. -/
def IsValidProofOfWork (blockHash : List Nat) (_bits : Nat) : Bool :=
  let leadingZeros := countLeadingZeroBytes blockHash
  let requiredZeros := 0
  leadingZeros ≥ requiredZeros

/- ### Transaction-level validation (pkg/transaction) -/

/-- transaction.IsCoinbase: exactly one input, all-zero previous hash,
previous index 0xFFFFFFFF. -/
def IsCoinbase (tx : Transaction) : Bool :=
  match tx.Inputs with
  | [input] => input.PrevTxHash.all (fun b => b = 0) && (input.OutputIndex == 0xFFFFFFFF)
  | _ => false

/-- transaction.ValidateCoinbase (blockHeight is accepted but unused by
the source). -/
def ValidateCoinbase (tx : Transaction) (_blockHeight : Nat) : Except VErr Unit :=
  if !IsCoinbase tx then .error .notCoinbase
  else
    let sigScript := (tx.Inputs.headD default).SignatureScript
    if sigScript.length < 2 ∨ sigScript.length > 100 then
      .error (.coinbaseScriptLen sigScript.length)
    else if tx.Outputs.length = 0 then .error .coinbaseNoOutputs
    else .ok ()

/-- The duplicate-input scan of transaction.ValidateTransaction: reports
the first input whose (previous hash, output index) pair was already
seen. -/
def firstDupInput : List TxInput → List (Hash × Nat) → Option (Hash × Nat)
  | [], _ => none
  | i :: rest, seen =>
    let key := (i.PrevTxHash, i.OutputIndex)
    if key ∈ seen then some key else firstDupInput rest (key :: seen)

/-- The per-output range checks (rules 3 and 4) of
transaction.ValidateTransaction. -/
def checkOutputRanges : List TxOutput → Nat → Except VErr Unit
  | [], _ => .ok ()
  | o :: rest, i =>
    if o.Value < 0 then .error (.txNegativeOutput i)
    else if o.Value > MaxMoney then .error (.txOutputTooLarge i)
    else checkOutputRanges rest (i + 1)

/-- transaction.ValidateTransaction. The rule-5 overflow guard
(totalOut < 0 after an int64 addition) can never fire over unbounded
Int once every output passed the range checks, but is kept as written. -/
def ValidateTransaction (tx : Transaction) : Except VErr Unit := do
  if tx.Inputs.length = 0 then throw .txNoInputs
  else if tx.Outputs.length = 0 then throw .txNoOutputs
  else
    match firstDupInput tx.Inputs [] with
    | some k => throw (.txDupInput k.1 k.2)
    | none => do
      checkOutputRanges tx.Outputs 0
      let totalOut := tx.Outputs.foldl (fun acc o => acc + o.Value) 0
      if totalOut < 0 then throw .txTotalOverflow
      else if (SerializeTransaction tx).length > 100000 then throw .txTooLarge
      else pure ()

/- ### Block validation (pkg/validation/block.go) -/

/-- BlockValidator.validateInputScript: the source only concatenates the
scripts, discards the result and returns nil. -/
def validateInputScript (_input : TxInput) (_prevOutput : TxOutput)
    (_tx : Transaction) (_inputIdx : Nat) : Except VErr Unit := .ok ()

/-- The input loop of BlockValidator.validateTransactionInputs: look up
each spent UTXO (error if absent), run the input-script check, and
accumulate the input values. No height or maturity data is consulted. -/
def sumInputValues (s : UTXOSet) (tx : Transaction) :
    List TxInput → Nat → Except VErr Int
  | [], _ => .ok 0
  | i :: rest, idx => do
    match UTXOSetGet s (NewOutPoint i.PrevTxHash i.OutputIndex) with
    | none => throw (.utxoNotFound idx (NewOutPoint i.PrevTxHash i.OutputIndex))
    | some spentUTXO => do
      validateInputScript i spentUTXO.Output tx idx
      let restSum ← sumInputValues s tx rest (idx + 1)
      pure (spentUTXO.Output.Value + restSum)

/-- The output loop of BlockValidator.validateTransactionInputs: total
the outputs, checking each against the money range. -/
def sumOutputsChecked : List TxOutput → Except VErr Int
  | [] => .ok 0
  | o :: rest => do
    CheckMoneyRange o.Value
    let restSum ← sumOutputsChecked rest
    pure (o.Value + restSum)

/-- BlockValidator.validateTransactionInputs: returns the fee
(inputs minus outputs), failing when a referenced UTXO is absent or the
outputs exceed the inputs. -/
def validateTransactionInputs (s : UTXOSet) (tx : Transaction) : Except VErr Int := do
  let totalIn ← sumInputValues s tx tx.Inputs 0
  let totalOut ← sumOutputsChecked tx.Outputs
  let fee := totalIn - totalOut
  if fee < 0 then throw .outputsExceedInputs
  else pure fee

/-- BlockValidator.validateBlockHeader. -/
def validateBlockHeader (header : BlockHeader) (prevBlockHash : Hash) : Except VErr Unit :=
  if header.PrevBlockHash ≠ prevBlockHash then .error .prevHashMismatch
  else
    let blockHash := HashBlockHeader header
    if !IsValidProofOfWork blockHash header.Bits then .error .insufficientPoW
    else .ok ()

/-- Step 5 of BlockValidator.ValidateBlock: the index of the first
coinbase among the non-first transactions, if any. -/
def firstCoinbaseAfter : List Transaction → Nat → Option Nat
  | [], _ => none
  | tx :: rest, i => if IsCoinbase tx then some i else firstCoinbaseAfter rest (i + 1)

/-- Step 7 of BlockValidator.ValidateBlock over the non-coinbase
transactions: basic validation, input validation against the UTXO set,
and fee accumulation. -/
def validateTxsLoop (s : UTXOSet) : List Transaction → Nat → Except VErr Int
  | [], _ => .ok 0
  | tx :: rest, i => do
    match ValidateTransaction tx with
    | .error e => throw (.txInvalid i e)
    | .ok () =>
      match validateTransactionInputs s tx with
      | .error e => throw (.txInputsInvalid i e)
      | .ok fee => do
        let restFees ← validateTxsLoop s rest (i + 1)
        pure (fee + restFees)

/-- Step 10 of BlockValidator.ValidateBlock: the first transaction hash
appearing twice, if any. -/
def firstDupHash : List Hash → List Hash → Option Hash
  | [], _ => none
  | h :: rest, seen => if h ∈ seen then some h else firstDupHash rest (h :: seen)

/-- BlockValidator.ValidateBlock: full block validation against a UTXO
set, at a claimed height, with an expected previous block hash. -/
def ValidateBlock (s : UTXOSet) (block : Block) (height : Nat)
    (prevBlockHash : Hash) : Except VErr Unit := do
  -- 1. Validate block header
  validateBlockHeader block.Header prevBlockHash
  -- 2. Check block size
  if (SerializeBlock block).length > MaxBlockSize then throw .blockTooLarge
  -- 3. Validate transactions (non-empty)
  else if block.Transactions.length = 0 then throw .noTransactions
  -- 4. First transaction must be coinbase
  else if !IsCoinbase (block.Transactions.headD default) then throw .firstNotCoinbase
  else
    -- 5. Only first transaction can be coinbase
    match firstCoinbaseAfter (block.Transactions.drop 1) 1 with
    | some i => throw (.coinbaseNotFirst i)
    | none => do
      -- 6. Validate coinbase
      ValidateCoinbase (block.Transactions.headD default) height
      -- 7. Validate all transactions, accumulating fees
      let totalFees ← validateTxsLoop s (block.Transactions.drop 1) 1
      -- 8. Validate coinbase reward (the source reads Outputs[0].Value)
      let coinbaseValue := ((block.Transactions.headD default).Outputs.headD default).Value
      ValidateBlockReward coinbaseValue totalFees height
      -- 9. Verify merkle root
      let txHashes := block.Transactions.map HashTransaction
      if ComputeMerkleRoot txHashes ≠ block.Header.MerkleRoot then throw .merkleMismatch
      else
        -- 10. Check for duplicate transactions
        match firstDupHash txHashes [] with
        | some h => throw (.duplicateTx h)
        | none => pure ()

/-- The transaction loop of BlockValidator.ApplyBlock: apply each
transaction in order, treating index 0 as the coinbase; an error stops
the loop with the mutations so far retained. -/
def applyTxsLoop (height : Nat) : UTXOSet → Nat → List Transaction → Option OutPoint × UTXOSet
  | s, _, [] => (none, s)
  | s, i, tx :: rest =>
    match ApplyTransaction s tx (HashTransaction tx) height (i == 0) with
    | (some e, s1) => (some e, s1)
    | (none, s1) => applyTxsLoop height s1 (i + 1) rest

/-- BlockValidator.ApplyBlock. -/
def ApplyBlock (s : UTXOSet) (block : Block) (height : Nat) : Option OutPoint × UTXOSet :=
  applyTxsLoop height s 0 block.Transactions

/-- BlockValidator.RevertBlock: revert transactions in reverse order
(utxo.UTXOSet.RevertTransaction never fails, so this is total). -/
def RevertBlock (s : UTXOSet) (block : Block) : UTXOSet :=
  block.Transactions.reverse.foldl (fun st tx => RevertTransaction st tx (HashTransaction tx)) s

/- ### Mempool (pkg/mempool) -/

/-- mempool.MempoolEntry. -/
structure MempoolEntry where
  Tx : Transaction
  TxHash : Hash
  Size : Int
  Fee : Int
  FeeRate : Int
  Time : Int
  Height : Nat
  Parents : List Hash
  Children : List Hash
  AncestorFee : Int
  AncestorSize : Int
deriving Repr, DecidableEq, Inhabited

/-- Generic association-list lookup (Go map read). -/
def alookup {κ α : Type} [DecidableEq κ] (l : List (κ × α)) (k : κ) : Option α :=
  match l.find? (fun e => e.1 = k) with
  | some e => some e.2
  | none => none

/-- Generic association-list deletion (Go map delete). -/
def aerase {κ α : Type} [DecidableEq κ] (l : List (κ × α)) (k : κ) : List (κ × α) :=
  l.filter (fun e => ¬(e.1 = k))

/-- Generic association-list write (Go map assignment). -/
def ainsert {κ α : Type} [DecidableEq κ] (l : List (κ × α)) (k : κ) (v : α) : List (κ × α) :=
  if (alookup l k).isSome then l.map (fun e => if e.1 = k then (k, v) else e)
  else l ++ [(k, v)]

/-- mempool.Mempool. The two Go maps become association lists; the
sync.RWMutex has no sequential content. -/
structure Mempool where
  entries : List (Hash × MempoolEntry)
  spentOutputs : List (OutPoint × Hash)
  maxSize : Int
  minFeeRate : Int
  maxTxAge : Int
  currentSize : Int
  currentHeight : Nat
deriving Repr, DecidableEq, Inhabited

/-- mempool.NewMempool. -/
def NewMempool (maxSize minFeeRate maxTxAge : Int) : Mempool :=
  ⟨[], [], maxSize, minFeeRate, maxTxAge, 0, 0⟩

/-- mempool.CalculateTransactionSize: the simplified byte-size formula
(version 4, one-byte varints, per-input 32+4+1+script+4, per-output
8+1+script, locktime 4). -/
def CalculateTransactionSize (tx : Transaction) : Int :=
  let afterInputs := tx.Inputs.foldl
    (fun acc i => acc + 32 + 4 + 1 + (i.SignatureScript.length : Int) + 4) (4 + 1)
  let afterOutputs := tx.Outputs.foldl
    (fun acc o => acc + 8 + 1 + (o.PubKeyScript.length : Int)) (afterInputs + 1)
  afterOutputs + 4

/-- mempool.Mempool.canReplace: the three-rule replace-by-fee test. The
sequence numbers of the replacement transaction are not consulted. -/
def canReplace (m : Mempool) (existing : MempoolEntry) (newFee newFeeRate : Int) : Bool :=
  if newFee ≤ existing.Fee then false
  else if newFeeRate ≤ existing.FeeRate then false
  else if newFee - existing.Fee < m.minFeeRate * existing.Size then false
  else true

/-- mempool.Mempool.findParents: parents are the in-mempool transactions
referenced by non-coinbase inputs, in input order. -/
def findParents (m : Mempool) : List TxInput → List Hash
  | [] => []
  | i :: rest =>
    if i.OutputIndex == 0xFFFFFFFF then findParents m rest
    else if (alookup m.entries i.PrevTxHash).isSome then i.PrevTxHash :: findParents m rest
    else findParents m rest

/-- mempool.Mempool.calculateAncestorMetrics: entry fee and size plus the
ancestor metrics of each present parent. -/
def calculateAncestorMetrics (m : Mempool) (entry : MempoolEntry) : Int × Int :=
  entry.Parents.foldl
    (fun acc ph =>
      match alookup m.entries ph with
      | some parent => (acc.1 + parent.AncestorFee, acc.2 + parent.AncestorSize)
      | none => acc)
    (entry.Fee, entry.Size)

/-- mempool.removeHash: drop every occurrence of a hash from a slice. -/
def removeHash (slice : List Hash) (hash : Hash) : List Hash :=
  slice.filter (fun h => ¬(h = hash))

/-- mempool.Mempool.removeTransaction: delete the entry, its size
contribution, its spent-output index entries and its back-links, then
recursively delete its children (whose nested errors Go ignores). The
fuel bounds the recursion depth; fuel at least the entry count makes the
bound inoperative since every recursive step removes an entry first.
Returns whether the entry was found (Go: a nil error). -/
def removeTransaction : Nat → Mempool → Hash → Bool × Mempool
  | 0, m, _ => (false, m)
  | Nat.succ fuel, m, txHash =>
    match alookup m.entries txHash with
    | none => (false, m)
    | some entry =>
      let m1 := { m with entries := aerase m.entries txHash,
                         currentSize := m.currentSize - entry.Size }
      let m2 := { m1 with spentOutputs :=
        (entry.Tx.Inputs.foldl
          (fun so i => aerase so (NewOutPoint i.PrevTxHash i.OutputIndex))
          m1.spentOutputs) }
      let m3 := entry.Parents.foldl
        (fun mm ph =>
          match alookup mm.entries ph with
          | some parent =>
            { mm with entries := (ainsert mm.entries ph
                { parent with Children := removeHash parent.Children txHash }) }
          | none => mm)
        m2
      let m4 := entry.Children.foldl
        (fun mm ch => (removeTransaction fuel mm ch).2) m3
      (true, m4)

/-- The ascending fee-rate ordering of mempool.Mempool.evictTransactions.
The Go exchange sort runs over a nondeterministically ordered map
snapshot; this embedding sorts the association-list order, a
deterministic refinement. -/
def insertByFeeRate (e : MempoolEntry) : List MempoolEntry → List MempoolEntry
  | [] => [e]
  | x :: xs => if e.FeeRate ≤ x.FeeRate then e :: x :: xs else x :: insertByFeeRate e xs

/-- Sort entries ascending by fee rate. -/
def sortByFeeRate : List MempoolEntry → List MempoolEntry
  | [] => []
  | x :: xs => insertByFeeRate x (sortByFeeRate xs)

/-- The eviction loop of mempool.Mempool.evictTransactions. -/
def evictLoop (fuel : Nat) (neededSize : Int) :
    Mempool → Int → List MempoolEntry → Bool × Mempool
  | m, _, [] => (false, m)
  | m, freedSize, e :: rest =>
    let m1 := (removeTransaction fuel m e.TxHash).2
    let freed1 := freedSize + e.Size
    if freed1 ≥ neededSize then (true, m1)
    else evictLoop fuel neededSize m1 freed1 rest

/-- mempool.Mempool.evictTransactions: evict lowest-fee-rate entries
until the needed size is freed. -/
def evictTransactions (m : Mempool) (neededSize : Int) : Bool × Mempool :=
  evictLoop (m.entries.length + 1) neededSize m 0 (sortByFeeRate (m.entries.map (fun e => e.2)))

/-- Structured errors of mempool.Mempool.Add. The dangling-index case
stands for the nil-pointer dereference Go would hit if the spent-output
index pointed at a missing entry; mempool operations preserve the
invariant that it never does. -/
inductive MpErr where
  | alreadyInMempool : MpErr
  | feeRateTooLow : MpErr
  | outputAlreadySpent (existing : Hash) : MpErr
  | danglingSpentIndex (existing : Hash) : MpErr
  | mempoolFull : MpErr
deriving Repr, DecidableEq

/-- The conflict (double-spend / replace-by-fee) loop of
mempool.Mempool.Add: for each input whose outpoint is already spent by a
mempool entry, reject unless canReplace accepts, in which case the
conflicting entry is removed at once and scanning continues. -/
def conflictLoop (fuel : Nat) (fee feeRate : Int) :
    Mempool → List TxInput → Except MpErr Mempool
  | m, [] => .ok m
  | m, i :: rest =>
    match alookup m.spentOutputs (NewOutPoint i.PrevTxHash i.OutputIndex) with
    | none => conflictLoop fuel fee feeRate m rest
    | some existingTxHash =>
      match alookup m.entries existingTxHash with
      | none => .error (.danglingSpentIndex existingTxHash)
      | some existingEntry =>
        if !canReplace m existingEntry fee feeRate then
          .error (.outputAlreadySpent existingTxHash)
        else
          conflictLoop fuel fee feeRate (removeTransaction fuel m existingTxHash).2 rest

/-- mempool.Mempool.Add. The entry timestamp time.Now().Unix() becomes
the explicit now argument; fee is the caller-supplied fee as in Go. -/
def MempoolAdd (m : Mempool) (tx : Transaction) (fee : Int) (height : Nat)
    (now : Int) : Except MpErr Mempool := do
  let txHash := HashTransaction tx
  if (alookup m.entries txHash).isSome then throw .alreadyInMempool
  else
    let size := CalculateTransactionSize tx
    -- Go int64 division truncates toward zero
    let feeRate := Int.tdiv fee size
    if feeRate < m.minFeeRate then throw .feeRateTooLow
    else do
      let m1 ← conflictLoop (m.entries.length + 1) fee feeRate m tx.Inputs
      let m2 ←
        if m1.currentSize + size > m1.maxSize then
          match evictTransactions m1 size with
          | (false, _) => throw .mempoolFull
          | (true, m2) => pure m2
        else pure m1
      let parents := findParents m2 tx.Inputs
      let entry0 : MempoolEntry :=
        { Tx := tx, TxHash := txHash, Size := size, Fee := fee, FeeRate := feeRate,
          Time := now, Height := height, Parents := parents, Children := [],
          AncestorFee := 0, AncestorSize := 0 }
      let metrics := calculateAncestorMetrics m2 entry0
      let entry := { entry0 with AncestorFee := metrics.1, AncestorSize := metrics.2 }
      let m3 := { m2 with entries := ainsert m2.entries txHash entry,
                          currentSize := m2.currentSize + size }
      let m4 := { m3 with spentOutputs :=
        (tx.Inputs.foldl
          (fun so i => ainsert so (NewOutPoint i.PrevTxHash i.OutputIndex) txHash)
          m3.spentOutputs) }
      let m5 := parents.foldl
        (fun mm ph =>
          match alookup mm.entries ph with
          | some parent =>
            { mm with entries := (ainsert mm.entries ph
                { parent with Children := parent.Children ++ [txHash] }) }
          | none => mm)
        m4
      pure m5

/- ### Script engine (pkg/script) -/

/-- Script opcode values (pkg/script/opcodes.go), as byte values. -/
def OP_0 : Nat := 0x00

/-- OP_PUSHDATA1 opcode value. -/
def OP_PUSHDATA1 : Nat := 0x4c

/-- OP_PUSHDATA2 opcode value. -/
def OP_PUSHDATA2 : Nat := 0x4d

/-- OP_PUSHDATA4 opcode value. -/
def OP_PUSHDATA4 : Nat := 0x4e

/-- OP_1NEGATE opcode value. -/
def OP_1NEGATE : Nat := 0x4f

/-- OP_1 opcode value. -/
def OP_1 : Nat := 0x51

/-- OP_16 opcode value. -/
def OP_16 : Nat := 0x60

/-- OP_NOP opcode value. -/
def OP_NOP : Nat := 0x61

/-- OP_VERIFY opcode value. -/
def OP_VERIFY : Nat := 0x69

/-- OP_RETURN opcode value. -/
def OP_RETURN : Nat := 0x6a

/-- OP_DROP opcode value. -/
def OP_DROP : Nat := 0x75

/-- OP_DUP opcode value. -/
def OP_DUP : Nat := 0x76

/-- OP_SWAP opcode value. -/
def OP_SWAP : Nat := 0x7c

/-- OP_EQUAL opcode value. -/
def OP_EQUAL : Nat := 0x87

/-- OP_EQUALVERIFY opcode value. -/
def OP_EQUALVERIFY : Nat := 0x88

/-- OP_SHA256 opcode value. -/
def OP_SHA256 : Nat := 0xa8

/-- OP_HASH160 opcode value. -/
def OP_HASH160 : Nat := 0xa9

/-- OP_CHECKSIG opcode value. -/
def OP_CHECKSIG : Nat := 0xac

/-- OP_CHECKSIGVERIFY opcode value. -/
def OP_CHECKSIGVERIFY : Nat := 0xad

/-- script.IsSmallInt: OP_1 through OP_16. -/
def IsSmallInt (op : Nat) : Bool := OP_1 ≤ op && op ≤ OP_16

/-- script.SmallIntValue. -/
def SmallIntValue (op : Nat) : Int :=
  if op = OP_0 then 0
  else if op = OP_1NEGATE then -1
  else if IsSmallInt op then Int.ofNat (op - OP_1 + 1)
  else 0

/-- Little-endian magnitude bytes of a natural number (the n > 0 loop of
int64ToScriptNum); the fuel bound 16 exceeds any int64 byte length. -/
def natLEBytesAux (fuel n : Nat) : List Nat :=
  match fuel with
  | 0 => []
  | Nat.succ f => if n = 0 then [] else (n % 256) :: natLEBytesAux f (n / 256)

/-- script.int64ToScriptNum: minimal little-endian encoding with a sign
bit in the top byte. -/
def int64ToScriptNum (n : Int) : ByteStr :=
  if n = 0 then []
  else
    let negative := n < 0
    let result := natLEBytesAux 16 n.natAbs
    match result.getLast? with
    | none => []
    | some lastB =>
      if lastB &&& 0x80 ≠ 0 then
        result ++ [if negative then 0x80 else 0x00]
      else if negative then result.dropLast ++ [lastB ||| 0x80]
      else result

/-- script.castToBool: true iff some byte is non-zero, except that a
0x80 in the final byte alone (negative zero) does not count. -/
def castToBool : ByteStr → Bool
  | [] => false
  | [x] => if x ≠ 0 then (if x = 0x80 then false else true) else false
  | x :: rest => if x ≠ 0 then true else castToBool rest

/-- script.Engine execution state: main stack (head is the top), alt
stack, script bytes and program counter. The transaction context set by
SetTransaction is carried but never read by the embedded opcodes, as in
the source. -/
structure Engine where
  stack : List ByteStr
  altStack : List ByteStr
  script : ByteStr
  pc : Nat
  tx : Option Transaction
  inputIdx : Nat
deriving Repr, DecidableEq, Inhabited

/-- script.NewEngine. -/
def NewEngine (script : ByteStr) : Engine := ⟨[], [], script, 0, none, 0⟩

/-- Structured errors of the script engine, one constructor per Go error
site. -/
inductive ScriptErr where
  | pcOutOfBounds : ScriptErr
  | pushExceedsScript (n : Nat) : ScriptErr
  | stackUnderflow : ScriptErr
  | stackEmptyPeek : ScriptErr
  | swapUnderflow : ScriptErr
  | verifyFailed : ScriptErr
  | opReturnExecuted : ScriptErr
  | unimplementedOpcode (op : Nat) : ScriptErr
  | scriptEmptyStack : ScriptErr
  | scriptFalseTop : ScriptErr
deriving Repr, DecidableEq

/-- Stack.Push (head of the list is the stack top). -/
def stackPush (e : Engine) (item : ByteStr) : Engine :=
  { e with stack := item :: e.stack }

/-- Stack.Pop. -/
def stackPop (e : Engine) : Except ScriptErr (ByteStr × Engine) :=
  match e.stack with
  | [] => .error .stackUnderflow
  | x :: rest => .ok (x, { e with stack := rest })

/-- Stack.PushInt: push the script-number encoding. -/
def stackPushInt (e : Engine) (n : Int) : Engine :=
  stackPush e (int64ToScriptNum n)

/-- Stack.Dup. -/
def stackDup (e : Engine) : Except ScriptErr Engine :=
  match e.stack with
  | [] => .error .stackEmptyPeek
  | x :: rest => .ok { e with stack := x :: x :: rest }

/-- Stack.Swap. -/
def stackSwap (e : Engine) : Except ScriptErr Engine :=
  match e.stack with
  | a :: b :: rest => .ok { e with stack := b :: a :: rest }
  | _ => .error .swapUnderflow

/-- Engine.opVerify. -/
def opVerify (e : Engine) : Except ScriptErr Engine := do
  let (item, e1) ← stackPop e
  if !castToBool item then throw .verifyFailed
  else pure e1

/-- Engine.opEqual. -/
def opEqual (e : Engine) : Except ScriptErr Engine := do
  let (a, e1) ← stackPop e
  let (b, e2) ← stackPop e1
  if a = b then pure (stackPush e2 [1])
  else pure (stackPush e2 [])

/-- Engine.opHash160: RIPEMD-160 of SHA-256. -/
def opHash160 (e : Engine) : Except ScriptErr Engine := do
  let (item, e1) ← stackPop e
  pure (stackPush e1 (ripemd160 (sha256 item)))

/-- Engine.opSHA256. -/
def opSHA256 (e : Engine) : Except ScriptErr Engine := do
  let (item, e1) ← stackPop e
  pure (stackPush e1 (sha256 item))

/-- Engine.opCheckSig: the source pops key and signature and pushes true
whenever both are non-empty (full verification is left unimplemented). -/
def opCheckSig (e : Engine) : Except ScriptErr Engine := do
  let (pubKeyBytes, e1) ← stackPop e
  let (sigBytes, e2) ← stackPop e1
  if pubKeyBytes.length = 0 ∨ sigBytes.length = 0 then pure (stackPush e2 [])
  else pure (stackPush e2 [1])

/-- Engine.executePush: push the next n script bytes. -/
def executePush (e : Engine) (n : Nat) : Except ScriptErr Engine :=
  if e.pc + n > e.script.length then .error (.pushExceedsScript n)
  else
    .ok { e with stack := ((e.script.drop e.pc).take n) :: e.stack, pc := e.pc + n }

/-- Engine.step: execute one opcode. Opcodes 0x01..0x4b are direct
pushes; OP_PUSHDATA1/2/4 have no case and fall to the unimplemented
default. -/
def step (e : Engine) : Except ScriptErr Engine :=
  if e.pc ≥ e.script.length then .error .pcOutOfBounds
  else
    let opcode := e.script.getD e.pc 0
    let e1 := { e with pc := e.pc + 1 }
    if 0 < opcode ∧ opcode ≤ 0x4b then executePush e1 opcode
    else if opcode = OP_0 then .ok (stackPush e1 [])
    else if opcode = OP_1NEGATE then .ok (stackPushInt e1 (-1))
    else if IsSmallInt opcode then .ok (stackPushInt e1 (SmallIntValue opcode))
    else if opcode = OP_NOP then .ok e1
    else if opcode = OP_VERIFY then opVerify e1
    else if opcode = OP_RETURN then .error .opReturnExecuted
    else if opcode = OP_DUP then stackDup e1
    else if opcode = OP_EQUAL then opEqual e1
    else if opcode = OP_EQUALVERIFY then do
      let e2 ← opEqual e1
      opVerify e2
    else if opcode = OP_HASH160 then opHash160 e1
    else if opcode = OP_SHA256 then opSHA256 e1
    else if opcode = OP_CHECKSIG then opCheckSig e1
    else if opcode = OP_CHECKSIGVERIFY then do
      let e2 ← opCheckSig e1
      opVerify e2
    else if opcode = OP_DROP then do
      let (_, e2) ← stackPop e1
      pure e2
    else if opcode = OP_SWAP then stackSwap e1
    else .error (.unimplementedOpcode opcode)

/-- The stepping loop of Engine.Execute; every step advances pc by at
least one, so fuel equal to the script length makes the bound
inoperative. -/
def executeLoop : Nat → Engine → Except ScriptErr Engine
  | 0, e => .ok e
  | Nat.succ fuel, e =>
    if e.pc < e.script.length then do
      let e1 ← step e
      executeLoop fuel e1
    else .ok e

/-- Engine.Execute: run to completion; succeed iff the final stack is
non-empty with a true top. -/
def Execute (e : Engine) : Except ScriptErr Unit := do
  let e1 ← executeLoop e.script.length e
  match e1.stack with
  | [] => throw .scriptEmptyStack
  | top :: _ => if !castToBool top then throw .scriptFalseTop else pure ()

/-- script.Builder.AddData (pkg/script/builder.go): append the canonical
push of a data string to a script under construction. -/
def AddData (script : ByteStr) (data : ByteStr) : ByteStr :=
  let length := data.length
  if length = 0 then script ++ [OP_0]
  else if length ≤ 75 then script ++ [length] ++ data
  else if length ≤ 0xff then script ++ [OP_PUSHDATA1, length] ++ data
  else if length ≤ 0xffff then script ++ [OP_PUSHDATA2] ++ leBytes2 length ++ data
  else script ++ [OP_PUSHDATA4] ++ leBytes4 length ++ data

/- ### Signature hashing (pkg/rpc/client.go) -/

/-- rpc.SigHashAll. -/
def SigHashAll : Nat := 0x01

/-- rpc.SigHashNone. -/
def SigHashNone : Nat := 0x02

/-- rpc.SigHashSingle. -/
def SigHashSingle : Nat := 0x03

/-- rpc.SigHashAnyOneCanPay. -/
def SigHashAnyOneCanPay : Nat := 0x80

/-- Structured errors of rpc.CalcSignatureHash. -/
inductive SigHashErr where
  | invalidInputIndex : SigHashErr
  | singleIndexExceedsOutputs : SigHashErr
  | unsupportedHashType (t : Nat) : SigHashErr
deriving Repr, DecidableEq

/-- The sequence-zeroing loop shared by the SigHashNone and
SigHashSingle branches: set the sequence of every input other than the
selected one to 0. -/
def zeroOtherSeqs (inputIdx : Nat) : Nat → List TxInput → List TxInput
  | _, [] => []
  | j, i :: rest =>
    (if j ≠ inputIdx then { i with Sequence := 0 } else i) :: zeroOtherSeqs inputIdx (j + 1) rest

/-- rpc.CalcSignatureHash: the digest signed for one input of a
transaction (the Go negative-index check cannot fire for a Nat index). -/
def CalcSignatureHash (tx : Transaction) (inputIdx : Nat) (subscript : ByteStr)
    (hashType : Nat) : Except SigHashErr (List Nat) := do
  if inputIdx ≥ tx.Inputs.length then throw .invalidInputIndex
  else
    -- clear all input scripts, then install the subscript on the signed input
    let clearedInputs := tx.Inputs.map (fun i => { i with SignatureScript := [] })
    let withSub := clearedInputs.set inputIdx
      { clearedInputs.getD inputIdx default with SignatureScript := subscript }
    let txCopy0 : Transaction := { tx with Inputs := withSub }
    let baseType := hashType &&& 0x1f
    let txCopy1 ←
      if baseType = SigHashAll then pure txCopy0
      else if baseType = SigHashNone then
        pure { txCopy0 with Outputs := [],
                            Inputs := zeroOtherSeqs inputIdx 0 txCopy0.Inputs }
      else if baseType = SigHashSingle then
        if inputIdx ≥ txCopy0.Outputs.length then throw .singleIndexExceedsOutputs
        else
          pure { txCopy0 with Outputs := (txCopy0.Outputs.drop inputIdx).take 1,
                              Inputs := zeroOtherSeqs inputIdx 0 txCopy0.Inputs }
      else throw (.unsupportedHashType hashType)
    let txCopy2 :=
      if hashType &&& SigHashAnyOneCanPay ≠ 0 then
        { txCopy1 with Inputs := [txCopy1.Inputs.getD inputIdx default] }
      else txCopy1
    let serialized := SerializeTransaction txCopy2 ++ leBytes4 hashType
    pure (sha256 (sha256 serialized))

/- ### Specification-side model of the signature-hash procedure (claim C7)

The following definitions restate the documented procedure in the words
of the specification, independently of the code path structure above,
for the refinement comparison of claim C7. -/

/-- Spec model: blank every input script and install the subscript on
the selected input (earlier and later inputs blanked, the selected one
carrying the subscript). -/
def specBlankAndInstall : List TxInput → Nat → ByteStr → List TxInput
  | [], _, _ => []
  | i :: rest, 0, sub =>
    { i with SignatureScript := sub } ::
      rest.map (fun r => { r with SignatureScript := [] })
  | i :: rest, Nat.succ n, sub =>
    { i with SignatureScript := [] } :: specBlankAndInstall rest n sub

/-- Spec model: zero the sequence number of every input except the
selected one. -/
def specZeroOthers : List TxInput → Nat → List TxInput
  | [], _ => []
  | i :: rest, 0 => i :: rest.map (fun r => { r with Sequence := 0 })
  | i :: rest, Nat.succ n => { i with Sequence := 0 } :: specZeroOthers rest n

/-- Spec model of the documented signature-hash procedure: per-hash-type
transaction surgery followed by double SHA-256 of the canonical
serialization with the 4-byte little-endian hash type appended. -/
def specSigHash (tx : Transaction) (inputIdx : Nat) (subscript : ByteStr)
    (hashType : Nat) : Except SigHashErr (List Nat) :=
  if inputIdx ≥ tx.Inputs.length then .error .invalidInputIndex
  else
    let base := hashType &&& 0x1f
    let prepared := specBlankAndInstall tx.Inputs inputIdx subscript
    let modified : Except SigHashErr Transaction :=
      if base = SigHashAll then
        .ok { tx with Inputs := prepared }
      else if base = SigHashNone then
        .ok { tx with Inputs := specZeroOthers prepared inputIdx, Outputs := [] }
      else if base = SigHashSingle then
        if inputIdx ≥ tx.Outputs.length then .error .singleIndexExceedsOutputs
        else
          .ok { tx with Inputs := specZeroOthers prepared inputIdx,
                        Outputs := [tx.Outputs.getD inputIdx default] }
      else .error (.unsupportedHashType hashType)
    match modified with
    | .error e => .error e
    | .ok txm =>
      let final :=
        if hashType &&& SigHashAnyOneCanPay ≠ 0 then
          { txm with Inputs := [txm.Inputs.getD inputIdx default] }
        else txm
      .ok (DoubleSHA256 (SerializeTransaction final ++ leBytes4 hashType))

/- ### Theorems -/

/-- Sanity: SHA-256 of the empty string matches the FIPS 180-4 test vector. -/
theorem sha256_empty_vector :
    sha256 [] =
      [0xe3, 0xb0, 0xc4, 0x42, 0x98, 0xfc, 0x1c, 0x14, 0x9a, 0xfb, 0xf4, 0xc8,
       0x99, 0x6f, 0xb9, 0x24, 0x27, 0xae, 0x41, 0xe4, 0x64, 0x9b, 0x93, 0x4c,
       0xa4, 0x95, 0x99, 0x1b, 0x78, 0x52, 0xb8, 0x55] := by
  decide

/-- Sanity: SHA-256 of "abc" matches the FIPS 180-4 test vector. -/
theorem sha256_abc_vector :
    sha256 [0x61, 0x62, 0x63] =
      [0xba, 0x78, 0x16, 0xbf, 0x8f, 0x01, 0xcf, 0xea, 0x41, 0x41, 0x40, 0xde,
       0x5d, 0xae, 0x22, 0x23, 0xb0, 0x03, 0x61, 0xa3, 0x96, 0x17, 0x7a, 0x9c,
       0xb4, 0x10, 0xff, 0x61, 0xf2, 0x00, 0x15, 0xad] := by
  decide

/-- Sanity: RIPEMD-160 of the empty string matches the reference test vector. -/
theorem ripemd160_empty_vector :
    ripemd160 [] =
      [0x9c, 0x11, 0x85, 0xa5, 0xc5, 0xe9, 0xfc, 0x54, 0x61, 0x28,
       0x08, 0x97, 0x7e, 0xe8, 0xf5, 0x48, 0xb2, 0x25, 0x8d, 0x31] := by
  decide

/-- Sanity: RIPEMD-160 of "abc" matches the reference test vector. -/
theorem ripemd160_abc_vector :
    ripemd160 [0x61, 0x62, 0x63] =
      [0x8e, 0xb2, 0x08, 0xf7, 0xe0, 0x5d, 0x98, 0x7a, 0x9b, 0x04,
       0x4a, 0x8e, 0x98, 0xc6, 0xb0, 0x87, 0xf1, 0x5a, 0x0b, 0xfc] := by
  decide

/-- C8: the Merkle root of a single hash is that hash itself, and the
Merkle root of three hashes [A, B, C] is
dsha(dsha(A||B) || dsha(C||C)), the last node of the odd level being
duplicated. -/
theorem computeMerkleRoot_one_and_three (A B C : Hash) :
    ComputeMerkleRoot [A] = A ∧
    ComputeMerkleRoot [A, B, C] =
      DoubleSHA256 (DoubleSHA256 (A ++ B) ++ DoubleSHA256 (C ++ C)) := by
  constructor
  · rfl
  · rfl

/-- C10: the two independent subsidy implementations agree at every
height: validation.GetBlockReward equals consensus.GetBlockSubsidy under
the mainnet rules (halving interval 210000, 64-halving cutoff). -/
theorem getBlockReward_eq_mainnet_subsidy (height : Nat) :
    GetBlockReward height = Int.ofNat (GetBlockSubsidy NewMainnetRules height) := by
  unfold GetBlockReward GetBlockSubsidy NewMainnetRules SubsidyHalvingInterval InitialBlockReward
  simp only
  split
  · rfl
  · rfl

/-- C3 counterexample: proof-of-work validation accepts a header whose
double-SHA-256 hash has zero leading zero bytes (meeting no N > 0 rule
and no bits target), so validation never fails on proof of work. -/
theorem powHeaderAcceptedWithoutWork :
    validateBlockHeader ⟨1, zeroHash, zeroHash, 0, 0x1d00ffff, 0⟩ zeroHash = .ok () ∧
    countLeadingZeroBytes
      (HashBlockHeader ⟨1, zeroHash, zeroHash, 0, 0x1d00ffff, 0⟩) = 0 ∧
    IsValidProofOfWork (List.replicate 32 0xff) 0x1d00ffff = true := by
  refine ⟨by rfl, by decide, by decide⟩

/-- C3 amended: IsValidProofOfWork counts leading zero bytes of the hash
against a required count hardcoded to 0 and ignores bits, so every hash
passes, and header validation accepts any header whose previous-hash
field matches. -/
theorem powAlwaysAccepts :
    (∀ (blockHash : List Nat) (bits : Nat), IsValidProofOfWork blockHash bits = true) ∧
    (∀ (header : BlockHeader) (prevHash : Hash),
      header.PrevBlockHash = prevHash → validateBlockHeader header prevHash = .ok ()) := by
  constructor
  · intro blockHash bits
    simp [IsValidProofOfWork]
  · intro header prevHash hprev
    simp [validateBlockHeader, hprev, IsValidProofOfWork]

/-- C3 amended witness: the always-accepting header validation at a
concrete header. -/
theorem powAlwaysAccepts_witness :
    (⟨2, zeroHash, zeroHash, 5, 17, 9⟩ : BlockHeader).PrevBlockHash = zeroHash ∧
    validateBlockHeader ⟨2, zeroHash, zeroHash, 5, 17, 9⟩ zeroHash = .ok () :=
  ⟨rfl, powAlwaysAccepts.2 ⟨2, zeroHash, zeroHash, 5, 17, 9⟩ zeroHash rfl⟩

/-- C9: the script engine has no case for OP_PUSHDATA1/2/4: stepping a
script consisting of such an opcode, its length field and the announced
data byte fails with the unimplemented-opcode error instead of pushing
the data, even though the script builder emits exactly these opcodes for
data longer than 75 bytes. -/
theorem pushdataUnimplemented :
    step (NewEngine [OP_PUSHDATA1, 1, 0xaa]) = .error (.unimplementedOpcode OP_PUSHDATA1) ∧
    step (NewEngine ([OP_PUSHDATA2, 1, 0] ++ [0xaa])) = .error (.unimplementedOpcode OP_PUSHDATA2) ∧
    step (NewEngine ([OP_PUSHDATA4, 1, 0, 0, 0] ++ [0xaa])) = .error (.unimplementedOpcode OP_PUSHDATA4) ∧
    AddData [] (List.replicate 76 7) = [OP_PUSHDATA1, 76] ++ List.replicate 76 7 := by
  refine ⟨by rfl, by rfl, by rfl, by decide⟩

/-- The partially mutated set left by a failed removal phase only loses
entries: erasure is a filter. -/
theorem setErase_sublist (S : UTXOSet) (op : OutPoint) : (setErase S op).Sublist S :=
  List.filter_sublist S

/-- A failing input-removal loop returns a sub-association-list of the
initial set (deletions only, nothing added). -/
theorem removeInputsLoop_error_sublist :
    ∀ (inputs : List TxInput) (S S1 : UTXOSet) (op : OutPoint),
      removeInputsLoop S inputs = (some op, S1) → S1.Sublist S := by
  intro inputs
  induction inputs with
  | nil =>
    intro S S1 op h
    simp [removeInputsLoop] at h
  | cons i rest ih =>
    intro S S1 op h
    unfold removeInputsLoop at h
    by_cases hl : (setLookup S (NewOutPoint i.PrevTxHash i.OutputIndex)).isSome
    · rw [if_pos hl] at h
      exact (ih _ _ _ h).trans (setErase_sublist _ _)
    · rw [if_neg hl] at h
      obtain ⟨-, h2⟩ := Prod.mk.injEq .. ▸ h
      exact h2 ▸ List.Sublist.refl S

/-- A UTXO set holding one regular UTXO, for claim C4. -/
def setC4 : UTXOSet :=
  [(⟨List.replicate 32 1, 0⟩, ⟨List.replicate 32 1, 0, ⟨100, []⟩, 5, false⟩)]

/-- A transaction spending one present and one absent outpoint. -/
def txC4 : Transaction :=
  ⟨1, [⟨List.replicate 32 1, 0, [], 0xFFFFFFFF⟩, ⟨List.replicate 32 2, 0, [], 0xFFFFFFFF⟩],
   [⟨50, []⟩], 0⟩

/-- A transaction whose very first input references an absent outpoint. -/
def txC4first : Transaction :=
  ⟨1, [⟨List.replicate 32 2, 0, [], 0xFFFFFFFF⟩], [⟨50, []⟩], 0⟩

/-- C4 counterexample: ApplyTransaction is not all-or-nothing. Spending
one present and one absent outpoint returns an error, yet the present
input has already been removed, so the set is not left as it was. -/
theorem applyTransactionNotAtomic :
    (ApplyTransaction setC4 txC4 zeroHash 9 false).1 = some ⟨List.replicate 32 2, 0⟩ ∧
    (ApplyTransaction setC4 txC4 zeroHash 9 false).2 ≠ setC4 := by
  refine ⟨by decide, by decide⟩

/-- C4 amended: when a non-coinbase transaction references an absent
outpoint, ApplyTransaction returns an error and adds no outputs — the
resulting set is a sub-association-list of the original, missing exactly
the inputs already processed — and when the very first input is the
absent one the set is returned unchanged. -/
theorem applyTransaction_error_behavior :
    (∀ (S : UTXOSet) (tx : Transaction) (txHash : Hash) (height : Nat)
       (err : OutPoint) (S1 : UTXOSet),
        ApplyTransaction S tx txHash height false = (some err, S1) → S1.Sublist S) ∧
    (∀ (S : UTXOSet) (tx : Transaction) (txHash : Hash) (height : Nat)
       (i : TxInput) (rest : List TxInput),
        tx.Inputs = i :: rest →
        setLookup S (NewOutPoint i.PrevTxHash i.OutputIndex) = none →
        ApplyTransaction S tx txHash height false =
          (some (NewOutPoint i.PrevTxHash i.OutputIndex), S)) := by
  constructor
  · intro S tx txHash height err S1 hA
    unfold ApplyTransaction at hA
    simp only [Bool.false_eq_true, if_false] at hA
    rcases hrem : removeInputsLoop S tx.Inputs with ⟨e, s1⟩
    rw [hrem] at hA
    cases e with
    | some op =>
      simp only at hA
      cases hA
      exact removeInputsLoop_error_sublist _ _ _ _ hrem
    | none =>
      simp only at hA
      exact absurd hA (by simp)
  · intro S tx txHash height i rest hIn hLook
    unfold ApplyTransaction
    simp only [Bool.false_eq_true, if_false, hIn]
    unfold removeInputsLoop
    simp [hLook]

/-- C4 amended witness: the error behavior instantiated at concrete
inputs, discharging each hypothesis by evaluation. -/
theorem applyTransaction_error_behavior_witness :
    ApplyTransaction setC4 txC4 zeroHash 9 false =
      (some (NewOutPoint (List.replicate 32 2) 0), []) ∧
    ([] : UTXOSet).Sublist setC4 ∧
    ApplyTransaction setC4 txC4first zeroHash 9 false =
      (some (NewOutPoint (List.replicate 32 2) 0), setC4) :=
  ⟨by decide,
   applyTransaction_error_behavior.1 setC4 txC4 zeroHash 9
     (NewOutPoint (List.replicate 32 2) 0) [] (by decide),
   applyTransaction_error_behavior.2 setC4 txC4first zeroHash 9
     ⟨List.replicate 32 2, 0, [], 0xFFFFFFFF⟩ [] rfl (by decide)⟩

/-- Characterization of an absent key in the association-list map. -/
theorem setLookup_eq_none_iff (S : UTXOSet) (op : OutPoint) :
    setLookup S op = none ↔ ∀ e ∈ S, e.1 ≠ op := by
  unfold setLookup
  rcases h : S.find? (fun e => e.1 = op) with - | e
  · constructor
    · intro _ e he
      have := List.find?_eq_none.mp h e he
      simpa using this
    · intro _
      rw [h]
  · constructor
    · intro hc
      rw [h] at hc
      exact absurd hc (by simp)
    · intro hall
      exfalso
      have hmem := List.mem_of_find?_eq_some h
      have hp := List.find?_some h
      exact hall e hmem (by simpa using hp)

/-- The association-list entries created by the output-addition loop,
one per output at consecutive indices. -/
def createdEntries (txHash : Hash) (height : Nat) (cb : Bool) : Nat → List TxOutput → UTXOSet
  | _, [] => []
  | i, o :: rest =>
    (NewOutPoint txHash i, NewUTXO txHash i o height cb) :: createdEntries txHash height cb (i + 1) rest

/-- Every created entry carries a key (txHash, j) with j inside the
index window of the loop. -/
theorem createdEntries_key (txHash : Hash) (height : Nat) (cb : Bool) :
    ∀ (os : List TxOutput) (i : Nat), ∀ p ∈ createdEntries txHash height cb i os,
      ∃ j, i ≤ j ∧ j < i + os.length ∧ p.1 = NewOutPoint txHash j := by
  intro os
  induction os with
  | nil => intro i p hp; simp [createdEntries] at hp
  | cons o rest ih =>
    intro i p hp
    simp only [createdEntries, List.mem_cons] at hp
    rcases hp with hp | hp
    · exact ⟨i, le_refl i, by simp, by rw [hp]⟩
    · obtain ⟨j, h1, h2, h3⟩ := ih (i + 1) p hp
      exact ⟨j, by omega, by simp; omega, h3⟩

/-- When the loop keys are fresh in the set, the output-addition loop is
exactly an append of the created entries. -/
theorem addOutputsLoop_eq_append (txHash : Hash) (height : Nat) (cb : Bool) :
    ∀ (os : List TxOutput) (S : UTXOSet) (i : Nat),
      (∀ j, i ≤ j → j < i + os.length → setLookup S (NewOutPoint txHash j) = none) →
      addOutputsLoop txHash height cb S i os = S ++ createdEntries txHash height cb i os := by
  intro os
  induction os with
  | nil => intro S i _; simp [addOutputsLoop, createdEntries]
  | cons o rest ih =>
    intro S i hfresh
    have hnone : setLookup S (NewOutPoint txHash i) = none :=
      hfresh i (le_refl i) (by simp)
    have hins : setInsert S (NewOutPoint txHash i) (NewUTXO txHash i o height cb)
        = S ++ [(NewOutPoint txHash i, NewUTXO txHash i o height cb)] := by
      simp [setInsert, hnone]
    simp only [addOutputsLoop, hins, createdEntries]
    rw [ih (S ++ [(NewOutPoint txHash i, NewUTXO txHash i o height cb)]) (i + 1) ?_]
    · simp
    · intro j hj1 hj2
      rw [setLookup_eq_none_iff]
      intro e he
      rcases List.mem_append.mp he with he | he
      · exact (setLookup_eq_none_iff S _).mp (hfresh j (by omega) (by simp at hj2 ⊢; omega)) e he
      · simp only [List.mem_singleton] at he
        subst he
        simp only [NewOutPoint]
        intro hcontra
        have : i = j := congrArg OutPoint.Index hcontra
        omega

/-- Erasing the whole index window of created entries from a set that
was fresh on that window restores the set exactly. -/
theorem revertRange_restores (txHash : Hash) (height : Nat) (cb : Bool) :
    ∀ (os : List TxOutput) (i : Nat) (S : UTXOSet),
      (∀ j, i ≤ j → j < i + os.length → setLookup S (NewOutPoint txHash j) = none) →
      (List.range' i os.length).foldl (fun st k => setErase st (NewOutPoint txHash k))
        (S ++ createdEntries txHash height cb i os) = S := by
  intro os
  induction os with
  | nil => intro i S _; simp [createdEntries]
  | cons o rest ih =>
    intro i S hfresh
    rw [List.length_cons, List.range'_succ]
    simp only [List.foldl_cons]
    have h1 : setErase (S ++ createdEntries txHash height cb i (o :: rest)) (NewOutPoint txHash i)
        = S ++ createdEntries txHash height cb (i + 1) rest := by
      simp only [createdEntries, setErase, List.filter_append, List.filter_cons]
      rw [if_neg (by simp)]
      have hS : S.filter (fun e => ¬(e.1 = NewOutPoint txHash i)) = S := by
        apply List.filter_eq_self.mpr
        intro a ha
        have := (setLookup_eq_none_iff S (NewOutPoint txHash i)).mp
          (hfresh i (le_refl i) (by simp)) a ha
        simpa using this
      have hE : (createdEntries txHash height cb (i + 1) rest).filter
          (fun e => ¬(e.1 = NewOutPoint txHash i)) = createdEntries txHash height cb (i + 1) rest := by
        apply List.filter_eq_self.mpr
        intro a ha
        obtain ⟨j, hj1, hj2, hj3⟩ := createdEntries_key txHash height cb rest (i + 1) a ha
        simp only [hj3, NewOutPoint, decide_not]
        simp only [Bool.not_eq_eq_eq_not, Bool.not_true, decide_eq_false_iff_not]
        intro hcontra
        have : j = i := congrArg OutPoint.Index hcontra
        omega
      rw [hS, hE]
    rw [h1]
    exact ih (i + 1) S (fun j hj1 hj2 => hfresh j (by omega) (by
      simp only [List.length_cons]
      omega))

/-- C6 amended: applying and then reverting a block that consumes no
UTXO (a single coinbase transaction whose created outpoints are fresh)
removes every created output again and restores the set exactly; the
counterexample shows consumed UTXOs of spending blocks are not restored. -/
theorem applyRevertCoinbaseOnlyBlock (S : UTXOSet) (block : Block) (height : Nat)
    (cbtx : Transaction) (hb : block.Transactions = [cbtx])
    (hfresh : ∀ j, j < cbtx.Outputs.length →
      setLookup S (NewOutPoint (HashTransaction cbtx) j) = none) :
    (ApplyBlock S block height).1 = none ∧
    RevertBlock (ApplyBlock S block height).2 block = S := by
  have happly : ApplyBlock S block height =
      (none, addOutputsLoop (HashTransaction cbtx) height true S 0 cbtx.Outputs) := by
    unfold ApplyBlock
    rw [hb]
    simp [applyTxsLoop, ApplyTransaction]
  rw [happly]
  refine ⟨rfl, ?_⟩
  unfold RevertBlock
  rw [hb]
  simp only [List.reverse_cons, List.reverse_nil, List.nil_append, List.foldl_cons,
    List.foldl_nil]
  unfold RevertTransaction
  rw [addOutputsLoop_eq_append (HashTransaction cbtx) height true cbtx.Outputs S 0
    (fun j _ hj => hfresh j (by simpa using hj))]
  rw [List.range_eq_range' cbtx.Outputs.length]
  exact revertRange_restores (HashTransaction cbtx) height true cbtx.Outputs 0 S
    (fun j _ hj => hfresh j (by simpa using hj))

/-- A regular UTXO for claim C6. -/
def setC6 : UTXOSet :=
  [(⟨List.replicate 32 3, 0⟩, ⟨List.replicate 32 3, 0, ⟨100, []⟩, 2, false⟩)]

/-- A block whose second transaction spends the claim-C6 UTXO. -/
def blkC6 : Block :=
  ⟨⟨1, zeroHash, zeroHash, 0, 0, 0⟩,
   [⟨1, [⟨zeroHash, 0xFFFFFFFF, [0, 0], 0xFFFFFFFF⟩], [⟨5000000000, []⟩], 0⟩,
    ⟨1, [⟨List.replicate 32 3, 0, [], 0xFFFFFFFF⟩], [⟨100, []⟩], 0⟩]⟩

/-- C6 counterexample: applying a block that spends a UTXO and then
reverting it does not restore the set — the consumed UTXO stays absent,
because RevertBlock only deletes created outputs. -/
theorem applyRevertDoesNotRestore :
    (ApplyBlock setC6 blkC6 7).1 = none ∧
    RevertBlock (ApplyBlock setC6 blkC6 7).2 blkC6 ≠ setC6 ∧
    setLookup (RevertBlock (ApplyBlock setC6 blkC6 7).2 blkC6) ⟨List.replicate 32 3, 0⟩ = none := by
  refine ⟨by decide, by decide, by decide⟩

/-- A coinbase-only block for the C6 witness. -/
def blkC6w : Block :=
  ⟨⟨1, zeroHash, zeroHash, 0, 0, 0⟩,
   [⟨1, [⟨zeroHash, 0xFFFFFFFF, [1, 1], 0xFFFFFFFF⟩], [⟨5000000000, []⟩], 0⟩]⟩

/-- A one-entry UTXO set fresh for the C6 witness block. -/
def setC6w : UTXOSet :=
  [(⟨List.replicate 32 4, 0⟩, ⟨List.replicate 32 4, 0, ⟨7, []⟩, 1, false⟩)]

/-- C6 amended witness: the apply-revert round trip at a concrete
coinbase-only block restores the concrete set. -/
theorem applyRevertCoinbaseOnlyBlock_witness :
    (∀ j, j < (blkC6w.Transactions.headD default).Outputs.length →
      setLookup setC6w (NewOutPoint (HashTransaction (blkC6w.Transactions.headD default)) j) = none) ∧
    RevertBlock (ApplyBlock setC6w blkC6w 3).2 blkC6w = setC6w :=
  ⟨by decide,
   (applyRevertCoinbaseOnlyBlock setC6w blkC6w 3 (blkC6w.Transactions.headD default)
     rfl (by decide)).2⟩

/-- A coinbase paying the full subsidy on output 0 plus an extra satoshi
on output 1, for claim C1. -/
def cbC1 : Transaction :=
  ⟨1, [⟨zeroHash, 0xFFFFFFFF, [0, 0], 0xFFFFFFFF⟩], [⟨5000000000, []⟩, ⟨1, []⟩], 0⟩

/-- A block containing only the overpaying coinbase cbC1. -/
def blkC1 : Block :=
  ⟨⟨1, zeroHash, ComputeMerkleRoot [HashTransaction cbC1], 0, 0, 0⟩, [cbC1]⟩

/-- C1 counterexample: ValidateBlock checks only the first coinbase
output, so it accepts a block whose coinbase output total exceeds the
block reward plus fees. -/
theorem validateBlockAcceptsOverpayingCoinbase :
    ValidateBlock [] blkC1 0 zeroHash = .ok () ∧
    (blkC1.Transactions.headD default).Outputs.foldl (fun a o => a + o.Value) 0 >
      GetBlockReward 0 + 0 := by
  refine ⟨by rfl, by decide⟩

/-- A successful bind of validator stages yields a successful first
stage whose value makes the continuation succeed. -/
theorem bindOkElim {ε α β : Type} {f : α → Except ε β} {y : β} :
    ∀ {x : Except ε α}, (x >>= f) = .ok y → ∃ a, x = .ok a ∧ f a = .ok y := by
  intro x h
  match x, h with
  | .ok a, h =>
    refine ⟨a, rfl, ?_⟩
    simpa [Bind.bind, Except.bind] using h
  | .error e, h =>
    exact absurd h (by simp [Bind.bind, Except.bind])

/-- C1 amended: every block accepted by ValidateBlock has the value of
the first output of its coinbase bounded by the block reward plus the
total fees the validator computed for the non-coinbase transactions;
the bound covers only Outputs[0], not the coinbase output total. -/
theorem validateBlock_bounds_first_output (S : UTXOSet) (block : Block) (height : Nat)
    (prevHash : Hash) (h : ValidateBlock S block height prevHash = .ok ()) :
    ∃ F, validateTxsLoop S (block.Transactions.drop 1) 1 = .ok F ∧
      ((block.Transactions.headD default).Outputs.headD default).Value ≤
        GetBlockReward height + F := by
  unfold ValidateBlock at h
  obtain ⟨u1, hvh, h⟩ := bindOkElim h
  split at h
  · exact absurd h (by simp [throw, throwThe, MonadExceptOf.throw])
  · split at h
    · exact absurd h (by simp [throw, throwThe, MonadExceptOf.throw])
    · split at h
      · exact absurd h (by simp [throw, throwThe, MonadExceptOf.throw])
      · split at h
        · exact absurd h (by simp [throw, throwThe, MonadExceptOf.throw])
        · obtain ⟨u2, hvc, h⟩ := bindOkElim h
          obtain ⟨F, hf, h⟩ := bindOkElim h
          obtain ⟨u3, hvbr, h⟩ := bindOkElim h
          refine ⟨F, hf, ?_⟩
          by_cases hcv : ((block.Transactions.headD default).Outputs.headD default).Value >
              GetBlockReward height + F
          · unfold ValidateBlockReward at hvbr
            rw [if_pos hcv] at hvbr
            exact absurd hvbr (by simp)
          · omega

/-- A well-formed single-output coinbase for the C1 witness. -/
def cbC1w : Transaction :=
  ⟨1, [⟨zeroHash, 0xFFFFFFFF, [3, 3], 0xFFFFFFFF⟩], [⟨5000000000, []⟩], 0⟩

/-- The C1 witness block containing only cbC1w. -/
def blkC1w : Block :=
  ⟨⟨1, zeroHash, ComputeMerkleRoot [HashTransaction cbC1w], 0, 0, 0⟩, [cbC1w]⟩

/-- C1 amended witness: the first-output bound extracted from a concrete
accepted block. -/
theorem validateBlock_bounds_first_output_witness :
    ValidateBlock [] blkC1w 0 zeroHash = .ok () ∧
    ∃ F, validateTxsLoop [] (blkC1w.Transactions.drop 1) 1 = .ok F ∧
      ((blkC1w.Transactions.headD default).Outputs.headD default).Value ≤
        GetBlockReward 0 + F :=
  ⟨by rfl, validateBlock_bounds_first_output [] blkC1w 0 zeroHash (by rfl)⟩

/-- A UTXO set holding a coinbase-created UTXO from height 1000, for
claim C2. -/
def setC2 : UTXOSet :=
  [(⟨List.replicate 32 5, 0⟩, ⟨List.replicate 32 5, 0, ⟨100, []⟩, 1000, true⟩)]

/-- The coinbase of the C2 block. -/
def cbC2 : Transaction :=
  ⟨1, [⟨zeroHash, 0xFFFFFFFF, [0, 0], 0xFFFFFFFF⟩], [⟨5000000000, []⟩], 0⟩

/-- A transaction spending the immature coinbase UTXO of setC2. -/
def spendC2 : Transaction :=
  ⟨1, [⟨List.replicate 32 5, 0, [], 0xFFFFFFFF⟩], [⟨100, []⟩], 0⟩

/-- The C2 block at height 1001 spending a height-1000 coinbase UTXO. -/
def blkC2 : Block :=
  ⟨⟨1, zeroHash, ComputeMerkleRoot [HashTransaction cbC2, HashTransaction spendC2], 0, 0, 0⟩,
   [cbC2, spendC2]⟩

/-- C2: block validation accepts a height-1001 block spending a coinbase
UTXO created at height 1000 — 99 blocks short of maturity — because
validateTransactionInputs never consults heights, even though the
consensus maturity rule the repository ships rejects this spend. -/
theorem validateBlockAcceptsImmatureCoinbaseSpend :
    ValidateBlock setC2 blkC2 1001 zeroHash = .ok () ∧
    ValidateCoinbaseMaturity NewMainnetRules 1000 1001 = false ∧
    (setLookup setC2 ⟨List.replicate 32 5, 0⟩).map UTXO.IsCoinbase = some true ∧
    1001 < 1000 + NewMainnetRules.CoinbaseMaturity := by
  refine ⟨by rfl, by decide, by decide, by decide⟩

/-- An existing mempool transaction spending outpoint X, for claim C5. -/
def txM1 : Transaction :=
  ⟨1, [⟨List.replicate 32 6, 0, [], 0xFFFFFFFF⟩], [⟨90, []⟩], 0⟩

/-- The mempool entry for txM1 (size 60 bytes, fee 60, fee rate 1). -/
def entryM1 : MempoolEntry :=
  ⟨txM1, HashTransaction txM1, 60, 60, 1, 0, 0, [], [], 60, 60⟩

/-- A mempool holding entryM1 with its spent-outpoint index. -/
def mpC5 : Mempool :=
  ⟨[(HashTransaction txM1, entryM1)],
   [(⟨List.replicate 32 6, 0⟩, HashTransaction txM1)], 1000000, 1, 3600, 60, 0⟩

/-- A conflicting replacement spending the same outpoint with every
sequence number at 0xFFFFFFFF (not signalling RBF). -/
def txM2 : Transaction :=
  ⟨1, [⟨List.replicate 32 6, 0, [], 0xFFFFFFFF⟩], [⟨50, []⟩], 0⟩

/-- A conflicting replacement that fails the fee-rate rule. -/
def txM3 : Transaction :=
  ⟨1, [⟨List.replicate 32 6, 0, [], 0xFFFFFFFF⟩], [⟨40, []⟩], 0⟩

/-- C5 counterexample: Mempool.Add replaces a conflicting entry for a
new transaction that does not signal RBF (all sequences 0xFFFFFFFF),
because no sequence check exists: the old entry is evicted and the new
one admitted. -/
theorem mempoolReplacesWithoutRBFSignal :
    txM2.Inputs.all (fun i => decide (0xFFFFFFFE ≤ i.Sequence)) = true ∧
    (MempoolAdd mpC5 txM2 600 5 0).toOption.isSome = true ∧
    alookup ((MempoolAdd mpC5 txM2 600 5 0).toOption.getD mpC5).entries
      (HashTransaction txM1) = none ∧
    (alookup ((MempoolAdd mpC5 txM2 600 5 0).toOption.getD mpC5).entries
      (HashTransaction txM2)).isSome = true := by
  refine ⟨by decide, by decide, by decide, by decide⟩

/-- C5 amended: replacement of a conflicting mempool entry is governed
solely by the three-rule fee test of canReplace — higher fee, higher fee
rate, additional fee at least min_fee_rate times the old size — with no
RBF-signalling requirement, and Add rejects with the conflict error when
the conflicting entry of the first spent input fails the test. -/
theorem mempoolReplacementByFeeRulesOnly :
    (∀ (m : Mempool) (existing : MempoolEntry) (newFee newFeeRate : Int),
      canReplace m existing newFee newFeeRate = true ↔
        existing.Fee < newFee ∧ existing.FeeRate < newFeeRate ∧
          m.minFeeRate * existing.Size ≤ newFee - existing.Fee) ∧
    (∀ (m : Mempool) (tx : Transaction) (fee : Int) (height : Nat) (now : Int)
       (i : TxInput) (rest : List TxInput) (eh : Hash) (entry : MempoolEntry),
      tx.Inputs = i :: rest →
      alookup m.entries (HashTransaction tx) = none →
      ¬ Int.tdiv fee (CalculateTransactionSize tx) < m.minFeeRate →
      alookup m.spentOutputs (NewOutPoint i.PrevTxHash i.OutputIndex) = some eh →
      alookup m.entries eh = some entry →
      canReplace m entry fee (Int.tdiv fee (CalculateTransactionSize tx)) = false →
      MempoolAdd m tx fee height now = .error (.outputAlreadySpent eh)) := by
  constructor
  · intro m existing newFee newFeeRate
    unfold canReplace
    split_ifs with h1 h2 h3
    · simp only [Bool.false_eq_true, false_iff]
      omega
    · simp only [Bool.false_eq_true, false_iff]
      omega
    · simp only [Bool.false_eq_true, false_iff]
      omega
    · simp only [true_iff]
      omega
  · intro m tx fee height now i rest eh entry hIn hNotIn hRate hSpent hEntry hFail
    unfold MempoolAdd
    simp only [hNotIn, Option.isSome_none, Bool.false_eq_true, if_false]
    rw [if_neg hRate, hIn]
    unfold conflictLoop
    simp only [hSpent, hEntry, hFail]
    simp [Bind.bind, Except.bind]

/-- C5 amended witness: the three-rule test and the rejection path at
concrete mempool states. -/
theorem mempoolReplacementByFeeRulesOnly_witness :
    canReplace mpC5 entryM1 600 10 = true ∧
    canReplace mpC5 entryM1 90 1 = false ∧
    MempoolAdd mpC5 txM3 90 5 0 = .error (.outputAlreadySpent (HashTransaction txM1)) :=
  ⟨(mempoolReplacementByFeeRulesOnly.1 mpC5 entryM1 600 10).mpr (by decide),
   by decide,
   mempoolReplacementByFeeRulesOnly.2 mpC5 txM3 90 5 0
     ⟨List.replicate 32 6, 0, [], 0xFFFFFFFF⟩ [] (HashTransaction txM1) entryM1
     rfl (by decide) (by decide) (by decide) (by decide) (by decide)⟩

/-- Clearing every signature script and then installing the subscript at
the selected index equals the spec-side blank-and-install. -/
theorem specBlank_eq (sub : ByteStr) :
    ∀ (inputs : List TxInput) (idx : Nat), idx < inputs.length →
      (inputs.map (fun i => { i with SignatureScript := ([] : ByteStr) })).set idx
        { (inputs.map (fun i => { i with SignatureScript := ([] : ByteStr) })).getD idx default
            with SignatureScript := sub }
        = specBlankAndInstall inputs idx sub := by
  intro inputs
  induction inputs with
  | nil => intro idx h; simp at h
  | cons i rest ih =>
    intro idx h
    cases idx with
    | zero => rfl
    | succ n =>
      simp only [List.map_cons, List.set_cons_succ, List.getD_cons_succ, specBlankAndInstall]
      rw [ih n (by simpa using h)]

/-- Shifting both the target index and the running counter leaves the
sequence-zeroing loop unchanged. -/
theorem zeroOtherSeqs_shift :
    ∀ (inputs : List TxInput) (idx j : Nat),
      zeroOtherSeqs (idx + 1) (j + 1) inputs = zeroOtherSeqs idx j inputs := by
  intro inputs
  induction inputs with
  | nil => intro idx j; rfl
  | cons i rest ih =>
    intro idx j
    simp only [zeroOtherSeqs]
    rw [ih idx (j + 1)]
    congr 1
    by_cases hj : j = idx
    · simp [hj]
    · simp [hj, fun hc => hj (Nat.succ_injective hc)]

/-- Once the counter has passed the target index, the loop zeroes every
remaining sequence number. -/
theorem zeroOtherSeqs_gt :
    ∀ (inputs : List TxInput) (idx j : Nat), idx < j →
      zeroOtherSeqs idx j inputs = inputs.map (fun i => { i with Sequence := 0 }) := by
  intro inputs
  induction inputs with
  | nil => intro idx j _; rfl
  | cons i rest ih =>
    intro idx j hij
    simp only [zeroOtherSeqs, List.map_cons]
    rw [if_pos (by omega), ih idx (j + 1) (by omega)]

/-- The sequence-zeroing loop started at counter 0 equals the spec-side
zeroing of all non-selected inputs. -/
theorem specZero_eq :
    ∀ (inputs : List TxInput) (idx : Nat),
      zeroOtherSeqs idx 0 inputs = specZeroOthers inputs idx := by
  intro inputs
  induction inputs with
  | nil => intro idx; rfl
  | cons i rest ih =>
    intro idx
    cases idx with
    | zero =>
      simp only [zeroOtherSeqs, specZeroOthers]
      rw [if_neg (by omega), zeroOtherSeqs_gt rest 0 1 (by omega)]
    | succ n =>
      simp only [zeroOtherSeqs, specZeroOthers]
      rw [if_pos (by omega)]
      have := zeroOtherSeqs_shift rest n 0
      rw [this, ih n]

/-- The one-element slice at the selected index equals the singleton of
the element there. -/
theorem outputs_single_eq :
    ∀ (os : List TxOutput) (idx : Nat), idx < os.length →
      (os.drop idx).take 1 = [os.getD idx default] := by
  intro os
  induction os with
  | nil => intro idx h; simp at h
  | cons o rest ih =>
    intro idx h
    cases idx with
    | zero => rfl
    | succ n =>
      simp only [List.drop_succ_cons, List.getD_cons_succ]
      exact ih n (by simpa using h)

/-- C7: CalcSignatureHash follows the documented procedure exactly: it
blanks every input script, installs the subscript on the selected input,
applies the SIGHASH_ALL / NONE / SINGLE output and sequence surgery
(failing when SINGLE has no output at the input index), keeps only the
selected input under ANYONECANPAY, and returns the double SHA-256 of the
canonical serialization with the 4-byte little-endian hash type
appended. -/
theorem calcSignatureHash_matches_spec (tx : Transaction) (inputIdx : Nat)
    (subscript : ByteStr) (hashType : Nat) :
    CalcSignatureHash tx inputIdx subscript hashType =
      specSigHash tx inputIdx subscript hashType := by
  unfold CalcSignatureHash specSigHash
  by_cases hIdx : inputIdx ≥ tx.Inputs.length
  · simp [hIdx, throw, throwThe, MonadExceptOf.throw]
  · have hidx' : inputIdx < tx.Inputs.length := Nat.lt_of_not_le hIdx
    have hb := specBlank_eq subscript tx.Inputs inputIdx hidx'
    simp only [if_neg hIdx, hb]
    by_cases hAll : hashType &&& 0x1f = SigHashAll
    · simp only [hAll, if_pos rfl]
      by_cases hAny : hashType &&& SigHashAnyOneCanPay ≠ 0
      · simp [hAny, Bind.bind, Except.bind, pure, Except.pure, DoubleSHA256, SigHashAll, SigHashNone, SigHashSingle]
      · simp [hAny, Bind.bind, Except.bind, pure, Except.pure, DoubleSHA256, SigHashAll, SigHashNone, SigHashSingle]
    · by_cases hNone : hashType &&& 0x1f = SigHashNone
      · simp only [hAll, hNone, if_neg, if_pos rfl]
        rw [specZero_eq]
        by_cases hAny : hashType &&& SigHashAnyOneCanPay ≠ 0
        · simp [hAny, Bind.bind, Except.bind, pure, Except.pure, DoubleSHA256, SigHashAll, SigHashNone, SigHashSingle]
        · simp [hAny, Bind.bind, Except.bind, pure, Except.pure, DoubleSHA256, SigHashAll, SigHashNone, SigHashSingle]
      · by_cases hSingle : hashType &&& 0x1f = SigHashSingle
        · simp only [hAll, hNone, hSingle, if_neg, if_pos rfl]
          by_cases hOut : inputIdx ≥ tx.Outputs.length
          · simp [hOut, Bind.bind, Except.bind, throw, throwThe, MonadExceptOf.throw, SigHashAll, SigHashNone, SigHashSingle]
          · have hout' : inputIdx < tx.Outputs.length := Nat.lt_of_not_le hOut
            simp only [if_neg hOut]
            rw [specZero_eq, outputs_single_eq tx.Outputs inputIdx hout']
            by_cases hAny : hashType &&& SigHashAnyOneCanPay ≠ 0
            · simp [hAny, Bind.bind, Except.bind, pure, Except.pure, DoubleSHA256, SigHashAll, SigHashNone, SigHashSingle]
            · simp [hAny, Bind.bind, Except.bind, pure, Except.pure, DoubleSHA256, SigHashAll, SigHashNone, SigHashSingle]
        · simp [hAll, hNone, hSingle, Bind.bind, Except.bind, throw, throwThe,
            MonadExceptOf.throw]
